import Mathlib

/-!
Verification of the MarketGemini prompt-router core: data model, consolidation,
dispatch, digest analysis, and the UI-side provider toggle and digest parsing.
Shallow embedding: TypeScript interfaces become structures, machine floats for
confidence and cost become rationals, optional fields become Option, and
fallible operations return Except.
-/

namespace MarketGemini

/-- Provider identifier, from RouterTypes.ts: "gemini" | "openai" | "deepseek". -/
inductive Provider where
  | gemini
  | openai
  | deepseek
deriving DecidableEq, Repr

/-- Profile enum, from RouterTypes.ts: "factual" | "summary" | "creative" | "code". -/
inductive ProfileId where
  | factual
  | summary
  | creative
  | code
deriving DecidableEq, Repr

/-- Per-provider model call result, from BaseModelResult in RouterTypes.ts.
The confidence field is optional there (number | null | undefined). -/
structure ProviderResult where
  provider : Provider
  model : String
  profile : ProfileId
  content : String
  tokens_in : Nat
  tokens_out : Nat
  latency_ms : Nat
  cost_usd : ℚ
  confidence : Option ℚ
deriving DecidableEq, Repr

/-- Consolidation strategy tag, from FinalResult.strategy in RouterTypes.ts. -/
inductive Strategy where
  | single_model
  | highest_confidence
  | ensemble
deriving DecidableEq, Repr

/-- Final consolidated answer, from FinalResult in RouterTypes.ts. -/
structure FinalResult where
  content : String
  strategy : Strategy
deriving DecidableEq, Repr

/-- Consolidation configuration, from ConsolidateConfig in RouterTypes.ts. -/
structure ConsolidateConfig where
  enabled : Bool
  provider : Provider
  model : String
deriving DecidableEq, Repr

/-- Digest output, from DigestResult in RouterTypes.ts. -/
structure DigestResult where
  intent : String
  profile : ProfileId
  confidence : ℚ
  cleaned_prompt : String
  suggestions : List String
deriving DecidableEq, Repr

/-- Gateway failure classification, from the spec error taxonomy
(timeout, transport, rate-limited, invalid-response). -/
inductive GatewayError where
  | timeout
  | transport
  | rateLimited
  | invalidResponse
deriving DecidableEq, Repr

/-- Core error taxonomy from the spec: InvalidInput, NoProvidersSelected, NoResults. -/
inductive RouterError where
  | InvalidInput
  | NoProvidersSelected
  | NoResults
deriving DecidableEq, Repr

/-- Strict comparison on optional confidence values: an absent confidence ranks
below every present value, and present values compare as rationals. -/
def confLt : Option ℚ → Option ℚ → Bool
  | none, none => false
  | none, some _ => true
  | some _, none => false
  | some a, some b => decide (a < b)

/-- Left fold selecting the entry with the highest confidence under confLt;
strict comparison means the earliest entry wins ties. -/
def pickBest (best : ProviderResult) : List ProviderResult → ProviderResult
  | [] => best
  | x :: xs => pickBest (if confLt best.confidence x.confidence then x else best) xs

/-- Modelled from the spec: the Consolidator of section 4.4 is backend code not
present under src/ (only its request and response types are). Rule 1: a single
entry yields single_model with that content verbatim. Rule 2: with consolidation
disabled, pick the highest-confidence entry (absent confidence never outranks
present; ties go to the earliest dispatch position). Rule 3: with consolidation
enabled and several entries, call the gateway once for ensemble synthesis,
passing all contents in dispatch order; on failure degrade to rule 2. Empty
input fails with NoResults. The synthesis call is passed in as a function so
that its success or failure can be varied. -/
def consolidate (ec : ConsolidateConfig → List String → Option String)
    (results : List ProviderResult) (cfg : ConsolidateConfig) :
    Except RouterError FinalResult :=
  match results with
  | [] => Except.error RouterError.NoResults
  | [r] => Except.ok ⟨r.content, Strategy.single_model⟩
  | r :: s :: rest =>
      if cfg.enabled then
        match ec cfg ((r :: s :: rest).map (fun x => x.content)) with
        | some out => Except.ok ⟨out, Strategy.ensemble⟩
        | none =>
            Except.ok ⟨(pickBest r (s :: rest)).content, Strategy.highest_confidence⟩
      else Except.ok ⟨(pickBest r (s :: rest)).content, Strategy.highest_confidence⟩

theorem confLt_irrefl (a : Option ℚ) : confLt a a = false := by
  cases a <;> simp [confLt]

theorem confLt_trans {a b c : Option ℚ} (h1 : confLt a b = true)
    (h2 : confLt b c = true) : confLt a c = true := by
  cases a <;> cases b <;> cases c <;> simp_all [confLt]
  linarith

theorem confLt_asymm {a b : Option ℚ} (h : confLt a b = true) :
    confLt b a = false := by
  cases a <;> cases b <;> simp_all [confLt]
  linarith

theorem confLt_of_lt_of_not_lt {a b c : Option ℚ} (h1 : confLt a b = true)
    (h2 : confLt c b = false) : confLt a c = true := by
  cases a <;> cases b <;> cases c <;> simp_all [confLt]
  linarith

theorem confLt_of_not_lt_of_lt {a b c : Option ℚ} (h1 : confLt a b = false)
    (h2 : confLt a c = true) : confLt b c = true := by
  cases a <;> cases b <;> cases c <;> simp_all [confLt]
  linarith

/-- pickBest returns the earliest entry of maximal confidence: the scanned list
splits around the returned entry, everything before it is strictly below it,
and nothing in the list is strictly above it. -/
theorem pickBest_spec (xs : List ProviderResult) : ∀ best : ProviderResult,
    ∃ l t, best :: xs = l ++ pickBest best xs :: t
      ∧ (∀ y ∈ l, confLt y.confidence (pickBest best xs).confidence = true)
      ∧ ∀ y ∈ best :: xs, confLt (pickBest best xs).confidence y.confidence = false := by
  induction xs with
  | nil =>
      intro best
      refine ⟨[], [], rfl, by simp, ?_⟩
      intro y hy
      simp only [List.mem_singleton, pickBest] at *
      subst hy
      exact confLt_irrefl _
  | cons x xs ih =>
      intro best
      by_cases hbx : confLt best.confidence x.confidence = true
      · have hstep : pickBest best (x :: xs) = pickBest x xs := by
          simp [pickBest, hbx]
        obtain ⟨l, t, hdec, hl, hmax⟩ := ih x
        have hxr : confLt (pickBest x xs).confidence x.confidence = false :=
          hmax x (List.mem_cons_self _ _)
        refine ⟨best :: l, t, ?_, ?_, ?_⟩
        · rw [hstep]
          simpa using congrArg (fun z => best :: z) hdec
        · intro y hy
          rw [hstep]
          rcases List.mem_cons.mp hy with hy | hy
          · subst hy
            exact confLt_of_lt_of_not_lt hbx hxr
          · exact hl y hy
        · intro y hy
          rw [hstep]
          rcases List.mem_cons.mp hy with hy | hy
          · subst hy
            by_contra hcon
            have hry : confLt (pickBest x xs).confidence y.confidence = true := by
              simpa using hcon
            have : confLt (pickBest x xs).confidence x.confidence = true :=
              confLt_trans hry hbx
            rw [this] at hxr
            cases hxr
          · exact hmax y hy
      · have hbx' : confLt best.confidence x.confidence = false := by
          simpa using hbx
        have hstep : pickBest best (x :: xs) = pickBest best xs := by
          simp [pickBest, hbx']
        obtain ⟨l, t, hdec, hl, hmax⟩ := ih best
        cases l with
        | nil =>
            have hhead : best = pickBest best xs := by
              simpa using congrArg (fun z => z.head?) hdec
            refine ⟨[], x :: xs, ?_, by simp, ?_⟩
            · rw [hstep, ← hhead]
              simp
            · intro y hy
              rw [hstep, ← hhead]
              rcases List.mem_cons.mp hy with hy | hy
              · subst hy
                exact confLt_irrefl _
              · rcases List.mem_cons.mp hy with hy | hy
                · subst hy
                  exact hbx'
                · have := hmax y (List.mem_cons_of_mem _ hy)
                  rwa [← hhead] at this
        | cons a l' =>
            have hdec' : best :: xs = a :: (l' ++ pickBest best xs :: t) := by
              simpa using hdec
            have ha : a = best := by
              have := congrArg (fun z => z.head?) hdec'
              simpa using this.symm
            have hxs : xs = l' ++ pickBest best xs :: t := by
              have := congrArg (fun z => z.tail) hdec'
              simpa using this
            have hbr : confLt best.confidence (pickBest best xs).confidence = true := by
              have := hl a (List.mem_cons_self _ _)
              rwa [ha] at this
            have hxir : confLt x.confidence (pickBest best xs).confidence = true :=
              confLt_of_not_lt_of_lt hbx' hbr
            refine ⟨best :: x :: l', t, ?_, ?_, ?_⟩
            · rw [hstep]
              simp only [List.cons_append]
              rw [← hxs]
            · intro y hy
              rw [hstep]
              rcases List.mem_cons.mp hy with hy | hy
              · subst hy; exact hbr
              · rcases List.mem_cons.mp hy with hy | hy
                · subst hy; exact hxir
                · exact hl y (List.mem_cons_of_mem _ hy)
            · intro y hy
              rw [hstep]
              rcases List.mem_cons.mp hy with hy | hy
              · subst hy
                exact hmax y (List.mem_cons_self _ _)
              · rcases List.mem_cons.mp hy with hy | hy
                · subst hy
                  exact confLt_asymm hxir
                · exact hmax y (List.mem_cons_of_mem _ hy)

/-- pickBest returns a member of the scanned list. -/
theorem pickBest_mem (best : ProviderResult) (xs : List ProviderResult) :
    pickBest best xs ∈ best :: xs := by
  obtain ⟨l, t, hdec, -, -⟩ := pickBest_spec xs best
  rw [hdec]
  exact List.mem_append_right _ (List.mem_cons_self _ _)

/-- Claim C3: a single-entry results list always yields strategy single_model
with the content of that entry verbatim, for every configuration, including an
enabled one. -/
theorem consolidate_single_entry
    (ec : ConsolidateConfig → List String → Option String)
    (cfg : ConsolidateConfig) (r : ProviderResult) :
    consolidate ec [r] cfg = Except.ok ⟨r.content, Strategy.single_model⟩ := rfl

/-- Claim C4: consolidation of an empty results list always fails with
NoResults, for every configuration and every synthesis behaviour. -/
theorem consolidate_empty_noResults
    (ec : ConsolidateConfig → List String → Option String)
    (cfg : ConsolidateConfig) :
    consolidate ec [] cfg = Except.error RouterError.NoResults := rfl

/-- Claim C2: with more than one result and consolidation disabled, the
strategy is highest_confidence and the chosen entry is the one of maximal
confidence, where an absent confidence never outranks a present one and ties
resolve to the earliest dispatch position: the results split around the chosen
entry, every earlier entry is strictly below it, no entry is strictly above it,
and the chosen entry has a present confidence whenever any entry does. -/
theorem consolidate_disabled_picks_highest
    (ec : ConsolidateConfig → List String → Option String)
    (cfg : ConsolidateConfig) (results : List ProviderResult)
    (h1 : 1 < results.length) (h2 : cfg.enabled = false) :
    ∃ l chosen t, results = l ++ chosen :: t
      ∧ consolidate ec results cfg
          = Except.ok ⟨chosen.content, Strategy.highest_confidence⟩
      ∧ (∀ y ∈ l, confLt y.confidence chosen.confidence = true)
      ∧ (∀ y ∈ results, confLt chosen.confidence y.confidence = false)
      ∧ ((∃ y ∈ results, y.confidence.isSome = true) →
          chosen.confidence.isSome = true) := by
  obtain ⟨r, s, rest, rfl⟩ : ∃ r s rest, results = r :: s :: rest := by
    cases results with
    | nil => simp at h1
    | cons r rs =>
        cases rs with
        | nil => simp at h1
        | cons s rest => exact ⟨r, s, rest, rfl⟩
  obtain ⟨l, t, hdec, hl, hmax⟩ := pickBest_spec (s :: rest) r
  refine ⟨l, pickBest r (s :: rest), t, hdec, ?_, hl, hmax, ?_⟩
  · simp [consolidate, h2]
  · rintro ⟨y, hy, hys⟩
    have hno := hmax y hy
    cases hc : (pickBest r (s :: rest)).confidence with
    | some q => simp
    | none =>
        cases hyc : y.confidence with
        | none => rw [hyc] at hys; simp at hys
        | some q => rw [hc, hyc] at hno; simp [confLt] at hno

/-- Claim C1: with more than one result, consolidation enabled, and a failing
ensemble synthesis call, consolidate still returns a FinalResult, with
strategy highest_confidence and content drawn from the raw results. -/
theorem consolidate_ensemble_failure_degrades
    (ec : ConsolidateConfig → List String → Option String)
    (cfg : ConsolidateConfig) (results : List ProviderResult)
    (h1 : 1 < results.length) (h2 : cfg.enabled = true)
    (h3 : ec cfg (results.map (fun x => x.content)) = none) :
    ∃ fr, consolidate ec results cfg = Except.ok fr
      ∧ fr.strategy = Strategy.highest_confidence
      ∧ fr.content ∈ results.map (fun x => x.content) := by
  obtain ⟨r, s, rest, rfl⟩ : ∃ r s rest, results = r :: s :: rest := by
    cases results with
    | nil => simp at h1
    | cons r rs =>
        cases rs with
        | nil => simp at h1
        | cons s rest => exact ⟨r, s, rest, rfl⟩
  simp only [List.map_cons] at h3
  refine ⟨⟨(pickBest r (s :: rest)).content, Strategy.highest_confidence⟩, ?_, rfl, ?_⟩
  · simp [consolidate, h2, h3]
  · exact List.mem_map_of_mem _ (pickBest_mem r (s :: rest))

/-- Claim C7 as amended: for non-empty results whose contents are all
non-empty, and whose ensemble synthesis output is non-empty whenever it
succeeds, consolidate returns a FinalResult with non-empty content; it never
fails on non-empty input. -/
theorem consolidate_nonempty_content
    (ec : ConsolidateConfig → List String → Option String)
    (cfg : ConsolidateConfig) (results : List ProviderResult)
    (h1 : results ≠ [])
    (h2 : ∀ r ∈ results, r.content ≠ "")
    (h3 : ∀ s, ec cfg (results.map (fun x => x.content)) = some s → s ≠ "") :
    ∃ fr, consolidate ec results cfg = Except.ok fr ∧ fr.content ≠ "" := by
  cases results with
  | nil => exact absurd rfl h1
  | cons r rs =>
      cases rs with
      | nil =>
          exact ⟨⟨r.content, Strategy.single_model⟩, rfl,
            h2 r (List.mem_cons_self _ _)⟩
      | cons s rest =>
          by_cases he : cfg.enabled = true
          · cases hec : ec cfg ((r :: s :: rest).map (fun x => x.content)) with
            | some out =>
                refine ⟨⟨out, Strategy.ensemble⟩, ?_, h3 out hec⟩
                simp only [List.map_cons] at hec
                simp [consolidate, he, hec]
            | none =>
                refine ⟨⟨(pickBest r (s :: rest)).content, Strategy.highest_confidence⟩,
                  ?_, h2 _ (pickBest_mem r (s :: rest))⟩
                simp only [List.map_cons] at hec
                simp [consolidate, he, hec]
          · have he' : cfg.enabled = false := by simpa using he
            exact ⟨⟨(pickBest r (s :: rest)).content, Strategy.highest_confidence⟩,
              by simp [consolidate, he'],
              h2 _ (pickBest_mem r (s :: rest))⟩

/-- Synthesis call that always fails, for concrete instantiations. -/
def wNoneEC : ConsolidateConfig → List String → Option String := fun _ _ => none

/-- Concrete enabled configuration, for concrete instantiations. -/
def wCfgOn : ConsolidateConfig := ⟨true, Provider.gemini, "gemini-3.0-flash"⟩

/-- Concrete disabled configuration, for concrete instantiations. -/
def wCfgOff : ConsolidateConfig := ⟨false, Provider.gemini, "gemini-3.0-flash"⟩

/-- Concrete low-confidence result, for concrete instantiations. -/
def wLow : ProviderResult :=
  ⟨Provider.gemini, "gemini-3.0-flash", ProfileId.summary, "low answer",
    10, 20, 100, 0, some (2 / 5)⟩

/-- Concrete high-confidence result, for concrete instantiations. -/
def wHigh : ProviderResult :=
  ⟨Provider.openai, "gpt-5", ProfileId.summary, "high answer",
    10, 20, 100, 0, some (9 / 10)⟩

/-- Concrete result whose content is the empty string. -/
def wEmptyContent : ProviderResult :=
  ⟨Provider.gemini, "gemini-3.0-flash", ProfileId.summary, "", 0, 0, 0, 0, none⟩

/-- Claim C7 counterexample: a non-empty results list containing one entry with
empty content makes consolidate return a FinalResult whose content is empty,
so non-empty results do not by themselves guarantee non-empty final content. -/
theorem consolidate_nonempty_content_cex :
    ([wEmptyContent] : List ProviderResult) ≠ []
      ∧ ∃ fr, consolidate wNoneEC [wEmptyContent] wCfgOn = Except.ok fr
          ∧ fr.content = "" := by
  exact ⟨by simp, ⟨"", Strategy.single_model⟩, rfl, rfl⟩

/-- Claim C1 witness: two results, enabled configuration, failing synthesis. -/
theorem consolidate_ensemble_failure_degrades_witness :
    ∃ fr, consolidate wNoneEC [wLow, wHigh] wCfgOn = Except.ok fr
      ∧ fr.strategy = Strategy.highest_confidence
      ∧ fr.content ∈ ([wLow, wHigh] : List ProviderResult).map (fun x => x.content) :=
  consolidate_ensemble_failure_degrades wNoneEC wCfgOn [wLow, wHigh]
    (by decide) rfl rfl

/-- Claim C2 witness: two results with confidences 2/5 and 9/10 and a disabled
configuration. -/
theorem consolidate_disabled_picks_highest_witness :
    ∃ l chosen t, ([wLow, wHigh] : List ProviderResult) = l ++ chosen :: t
      ∧ consolidate wNoneEC [wLow, wHigh] wCfgOff
          = Except.ok ⟨chosen.content, Strategy.highest_confidence⟩
      ∧ (∀ y ∈ l, confLt y.confidence chosen.confidence = true)
      ∧ (∀ y ∈ ([wLow, wHigh] : List ProviderResult),
          confLt chosen.confidence y.confidence = false)
      ∧ ((∃ y ∈ ([wLow, wHigh] : List ProviderResult), y.confidence.isSome = true) →
          chosen.confidence.isSome = true) :=
  consolidate_disabled_picks_highest wNoneEC wCfgOff [wLow, wHigh] (by decide) rfl

/-- Claim C7 witness: two results with non-empty contents and a failing
synthesis call. -/
theorem consolidate_nonempty_content_witness :
    ∃ fr, consolidate wNoneEC [wLow, wHigh] wCfgOn = Except.ok fr
      ∧ fr.content ≠ "" :=
  consolidate_nonempty_content wNoneEC wCfgOn [wLow, wHigh]
    (by decide) (by decide) (by intro s h; simp [wNoneEC] at h)

/-- First-match association lookup keyed by provider. -/
def findOutcome {α : Type} : List (Provider × α) → Provider → Option α
  | [], _ => none
  | (q, o) :: rest, p => if q = p then some o else findOutcome rest p

theorem findOutcome_map {α : Type} (f : Provider → α) (l : List Provider)
    (p : Provider) (hp : p ∈ l) :
    findOutcome (l.map (fun q => (q, f q))) p = some (f p) := by
  induction l with
  | nil => cases hp
  | cons q l ih =>
      simp only [List.map_cons, findOutcome]
      by_cases h : q = p
      · subst h
        simp
      · rw [if_neg h]
        rcases List.mem_cons.mp hp with hp | hp
        · exact absurd hp.symm h
        · exact ih hp

theorem filterMap_eq_map_of_forall {α β : Type} (l : List α) (g : α → Option β)
    (f : α → β) (h : ∀ a ∈ l, g a = some (f a)) : l.filterMap g = l.map f := by
  induction l with
  | nil => rfl
  | cons a l ih =>
      rw [List.filterMap_cons, h a (List.mem_cons_self _ _), List.map_cons,
        ih (fun b hb => h b (List.mem_cons_of_mem _ hb))]

theorem filterMap_congr_mem {α β : Type} (l : List α) (g₁ g₂ : α → Option β)
    (h : ∀ a ∈ l, g₁ a = g₂ a) : l.filterMap g₁ = l.filterMap g₂ := by
  induction l with
  | nil => rfl
  | cons a l ih =>
      rw [List.filterMap_cons, List.filterMap_cons, h a (List.mem_cons_self _ _),
        ih (fun b hb => h b (List.mem_cons_of_mem _ hb))]

/-- Modelled from the spec: the Dispatcher of section 4.3 is backend code not
present under src/ (only its response types and its UI caller are). It checks
for an empty provider set before issuing any call, then issues one gateway call
per provider; tasks settle in an arbitrary completion order, and after all
settle the collection is reordered into the caller-specified provider order,
with failed calls diverted into the failures map. The completion order is an
explicit argument so that race outcomes can be varied, and the second component
of the returned pair is the list of gateway calls issued, for observability. -/
def dispatch (gw : Provider → ProfileId → String → Nat → Except GatewayError ProviderResult)
    (providers : List Provider) (profile : ProfileId) (prompt : String)
    (perCallTimeout : Nat) (completionOrder : List Provider) :
    Except RouterError (List ProviderResult × List (Provider × GatewayError))
      × List Provider :=
  if providers = [] then (Except.error RouterError.NoProvidersSelected, [])
  else
    let calls := providers.map (fun p => (p, gw p profile prompt perCallTimeout))
    let settled := completionOrder.filterMap
      (fun p => (findOutcome calls p).map (fun o => (p, o)))
    let results := providers.filterMap (fun p =>
      match findOutcome settled p with
      | some (Except.ok r) => some r
      | _ => none)
    let failures := providers.filterMap (fun p =>
      match findOutcome settled p with
      | some (Except.error e) => some (p, e)
      | _ => none)
    (Except.ok (results, failures), calls.map Prod.fst)

/-- Claim C5: for a non-empty provider list and any completion-order
permutation of it, dispatch returns the successes in caller-specified provider
order (the provider list filtered to the calls that succeeded) and the failures
likewise, so the output is invariant under completion order; one call is issued
per provider, in caller order. -/
theorem dispatch_order_invariant
    (gw : Provider → ProfileId → String → Nat → Except GatewayError ProviderResult)
    (providers completionOrder : List Provider) (profile : ProfileId)
    (prompt : String) (perCallTimeout : Nat)
    (h1 : providers ≠ []) (h2 : completionOrder.Perm providers) :
    dispatch gw providers profile prompt perCallTimeout completionOrder
      = (Except.ok
          (providers.filterMap (fun p => (gw p profile prompt perCallTimeout).toOption),
           providers.filterMap (fun p =>
             match gw p profile prompt perCallTimeout with
             | Except.error e => some (p, e)
             | _ => none)),
         providers) := by
  have hcalls : ∀ q ∈ providers,
      findOutcome (providers.map (fun p => (p, gw p profile prompt perCallTimeout))) q
        = some (gw q profile prompt perCallTimeout) :=
    fun q hq => findOutcome_map _ _ _ hq
  have hsettled :
      completionOrder.filterMap
          (fun p =>
            (findOutcome (providers.map (fun p => (p, gw p profile prompt perCallTimeout))) p).map
              (fun o => (p, o)))
        = completionOrder.map (fun q => (q, gw q profile prompt perCallTimeout)) := by
    refine filterMap_eq_map_of_forall _ _ _ (fun q hq => ?_)
    rw [hcalls q (h2.mem_iff.mp hq)]
    rfl
  have hlookup : ∀ p ∈ providers,
      findOutcome
          (completionOrder.map (fun q => (q, gw q profile prompt perCallTimeout))) p
        = some (gw p profile prompt perCallTimeout) :=
    fun p hp => findOutcome_map _ _ _ (h2.mem_iff.mpr hp)
  simp only [dispatch, if_neg h1, hsettled]
  refine congrArg₂ Prod.mk (congrArg Except.ok (congrArg₂ Prod.mk ?_ ?_)) ?_
  · refine filterMap_congr_mem _ _ _ (fun p hp => ?_)
    rw [hlookup p hp]
    cases gw p profile prompt perCallTimeout <;> rfl
  · refine filterMap_congr_mem _ _ _ (fun p hp => ?_)
    rw [hlookup p hp]
    cases gw p profile prompt perCallTimeout <;> rfl
  · rw [List.map_map]
    exact List.map_id _

/-- Claim C6: dispatch on an empty provider set fails with NoProvidersSelected
and the list of issued gateway calls is empty, for every gateway behaviour and
every completion order. -/
theorem dispatch_empty_noProviders
    (gw : Provider → ProfileId → String → Nat → Except GatewayError ProviderResult)
    (profile : ProfileId) (prompt : String) (perCallTimeout : Nat)
    (completionOrder : List Provider) :
    dispatch gw [] profile prompt perCallTimeout completionOrder
      = (Except.error RouterError.NoProvidersSelected, []) := rfl

/-- Concrete gateway in which gemini and deepseek succeed and openai times out,
for concrete instantiations. -/
def wGw : Provider → ProfileId → String → Nat → Except GatewayError ProviderResult
  | Provider.gemini, _, _, _ => Except.ok wLow
  | Provider.openai, _, _, _ => Except.error GatewayError.timeout
  | Provider.deepseek, _, _, _ => Except.ok wHigh

/-- Claim C5 witness: two providers dispatched with the reversed completion
order still settle into caller order. -/
theorem dispatch_order_invariant_witness :
    dispatch wGw [Provider.gemini, Provider.openai] ProfileId.summary "q" 5
        [Provider.openai, Provider.gemini]
      = (Except.ok
          (([Provider.gemini, Provider.openai] : List Provider).filterMap
            (fun p => (wGw p ProfileId.summary "q" 5).toOption),
           ([Provider.gemini, Provider.openai] : List Provider).filterMap
            (fun p =>
              match wGw p ProfileId.summary "q" 5 with
              | Except.error e => some (p, e)
              | _ => none)),
         [Provider.gemini, Provider.openai]) :=
  dispatch_order_invariant wGw [Provider.gemini, Provider.openai]
    [Provider.openai, Provider.gemini] ProfileId.summary "q" 5
    (by decide) (by decide)

/-- True when the string is empty or consists only of whitespace, matching the
trim-based emptiness guards in the sources. -/
def isBlank (s : String) : Bool := s.toList.all Char.isWhitespace

/-- Modelled from the spec: the Digest Analyzer of section 4.1 is backend code
not present under src/ (only the UI caller that mirrors its input guard is).
It rejects an empty or whitespace-only raw prompt with InvalidInput before any
work, and otherwise produces a DigestResult; the classification itself is
passed in as a function because the spec does not fix it. -/
def analyze (classify : String → DigestResult) (rawPrompt : String) :
    Except RouterError DigestResult :=
  if isBlank rawPrompt then Except.error RouterError.InvalidInput
  else Except.ok (classify rawPrompt)

/-- Claim C8: a blank raw prompt is rejected with InvalidInput and the
classifier is never consulted (the outcome is the same for every classifier),
while any other raw prompt yields a DigestResult. -/
theorem analyze_blank_rejects (classify : String → DigestResult) (raw : String) :
    (isBlank raw = true →
      analyze classify raw = Except.error RouterError.InvalidInput
        ∧ ∀ c₂ : String → DigestResult, analyze c₂ raw = analyze classify raw)
    ∧ (isBlank raw = false → analyze classify raw = Except.ok (classify raw)) := by
  refine ⟨fun hb => ⟨?_, fun c₂ => ?_⟩, fun hb => ?_⟩
  · simp [analyze, hb]
  · simp [analyze, hb]
  · simp [analyze, hb]

/-- Fixed classifier, for concrete instantiations. -/
def wClassify : String → DigestResult :=
  fun s => ⟨"unknown", ProfileId.summary, 1 / 2, s, []⟩

/-- Claim C8 witness: a whitespace-only prompt is rejected and a non-blank one
is analyzed. -/
theorem analyze_blank_rejects_witness :
    analyze wClassify "  " = Except.error RouterError.InvalidInput
      ∧ analyze wClassify "hi" = Except.ok (wClassify "hi") :=
  ⟨((analyze_blank_rejects wClassify "  ").1 (by decide)).1,
    (analyze_blank_rejects wClassify "hi").2 (by decide)⟩

/-- Provider toggle from ProviderSelector.tsx: a selected provider is removed
by filtering out every occurrence, an unselected one is appended at the end. -/
def toggle (selected : List Provider) (p : Provider) : List Provider :=
  if p ∈ selected then selected.filter (fun x => x ≠ p)
  else selected ++ [p]

/-- Claim C9: on a duplicate-free selection the toggle keeps the selection
duplicate-free, removes every occurrence of a selected provider, appends an
unselected provider exactly once at the end, and leaves at most one entry per
provider. -/
theorem toggle_nodup_invariant (sel : List Provider) (p : Provider)
    (h : sel.Nodup) :
    (toggle sel p).Nodup
    ∧ (p ∈ sel → p ∉ toggle sel p)
    ∧ (p ∈ sel → toggle sel p = sel.filter (fun x => x ≠ p))
    ∧ (p ∉ sel → toggle sel p = sel ++ [p])
    ∧ ∀ q : Provider, (toggle sel p).count q ≤ 1 := by
  by_cases hp : p ∈ sel
  · have ht : toggle sel p = sel.filter (fun x => x ≠ p) := by simp [toggle, hp]
    have hnd : (toggle sel p).Nodup := by rw [ht]; exact h.filter _
    refine ⟨hnd, fun _ => ?_, fun _ => ht, fun hc => absurd hp hc,
      fun q => List.nodup_iff_count_le_one.mp hnd q⟩
    intro hmem
    rw [ht] at hmem
    have := (List.mem_filter.mp hmem).2
    simp at this
  · have ht : toggle sel p = sel ++ [p] := by simp [toggle, hp]
    have hnd : (toggle sel p).Nodup := by
      rw [ht]
      simp [List.nodup_append, h, hp]
    exact ⟨hnd, fun hc => absurd hc hp, fun hc => absurd hc hp, fun _ => ht,
      fun q => List.nodup_iff_count_le_one.mp hnd q⟩

/-- Claim C9 witness: toggling an unselected provider on a one-element
selection. -/
theorem toggle_nodup_invariant_witness :
    (toggle [Provider.gemini] Provider.openai).Nodup
    ∧ (Provider.openai ∈ [Provider.gemini] →
        Provider.openai ∉ toggle [Provider.gemini] Provider.openai)
    ∧ (Provider.openai ∈ [Provider.gemini] →
        toggle [Provider.gemini] Provider.openai
          = [Provider.gemini].filter (fun x => x ≠ Provider.openai))
    ∧ (Provider.openai ∉ [Provider.gemini] →
        toggle [Provider.gemini] Provider.openai = [Provider.gemini] ++ [Provider.openai])
    ∧ ∀ q : Provider, (toggle [Provider.gemini] Provider.openai).count q ≤ 1 :=
  toggle_nodup_invariant [Provider.gemini] Provider.openai (by decide)

/-- JSON value as delivered by the response body of the digest endpoint. -/
inductive Json where
  | null
  | bool (b : Bool)
  | num (q : ℚ)
  | str (s : String)
  | arr (elems : List Json)
  | obj (fields : List (String × Json))

/-- Result of a JavaScript property access: a value or undefined. -/
inductive JsValue where
  | undef
  | val (j : Json)

/-- First-match association lookup among JSON object fields. -/
def assocLookup : List (String × Json) → String → Option Json
  | [], _ => none
  | (k, v) :: rest, key => if k = key then some v else assocLookup rest key

/-- JavaScript property access on a parsed JSON value: reading a property of
null throws a TypeError (modelled as Except.error), an object yields the field
value or undefined, and every other value yields undefined. -/
def jsGet : Json → String → Except Unit JsValue
  | Json.null, _ => Except.error ()
  | Json.obj fields, key =>
      Except.ok
        (match assocLookup fields key with
          | some v => JsValue.val v
          | none => JsValue.undef)
  | _, _ => Except.ok JsValue.undef

/-- The JavaScript nullish-coalescing operator: undefined and null fall back
to the default. -/
def coalesce (v : JsValue) (dflt : Json) : Json :=
  match v with
  | JsValue.undef => dflt
  | JsValue.val Json.null => dflt
  | JsValue.val j => j

/-- The digest record the UI builds from a digest response, before any type
trust: fields keep their raw JSON shapes. -/
structure ParsedDigest where
  intent : Json
  profile : Json
  confidence : ℚ
  cleaned_prompt : Json
  suggestions : List Json

/-- Digest-response parsing from handleAnalyze in ProviderSelector.tsx:
profile and intent coalesce to defaults, confidence is kept only when the
field is a number and is 0 otherwise, cleaned_prompt coalesces to the
submitted prompt, and suggestions are kept only when the field is an array. -/
def parseDigest (data : Json) (prompt : String) : Except Unit ParsedDigest := do
  let profileV ← jsGet data "profile"
  let intentV ← jsGet data "intent"
  let confV ← jsGet data "confidence"
  let cleanedV ← jsGet data "cleaned_prompt"
  let suggV ← jsGet data "suggestions"
  Except.ok
    { intent := coalesce intentV (Json.str "unknown")
      profile := coalesce profileV (Json.str "summary")
      confidence :=
        match confV with
        | JsValue.val (Json.num q) => q
        | _ => 0
      cleaned_prompt := coalesce cleanedV (Json.str prompt)
      suggestions :=
        match suggV with
        | JsValue.val (Json.arr xs) => xs
        | _ => [] }

/-- Spec-side observation: the value of a field of a JSON object response,
absent for every other JSON value. -/
def fieldOf : Json → String → Option Json
  | Json.obj fields, key => assocLookup fields key
  | _, _ => none

/-- The confidence the claim describes: the numeric field value when the field
is a number, and 0 otherwise. -/
def confidenceSpec : Option Json → ℚ
  | some (Json.num q) => q
  | _ => 0

/-- The suggestions the claim describes: the field value when the field is an
array, and the empty list otherwise. -/
def suggestionsSpec : Option Json → List Json
  | some (Json.arr xs) => xs
  | _ => []

/-- Claim C10 counterexample: the digest endpoint can return the JSON value
null, and parsing it fails (a property access on null throws in JavaScript and
lands in the surrounding catch), so the parse is not total over all JSON
values. -/
theorem parseDigest_null_fails : parseDigest Json.null "p" = Except.error () := rfl

/-- Claim C10 as amended: for every JSON value other than null, digest parsing
succeeds, confidence equals the confidence field when that field is a number
and 0 otherwise, suggestions equal the suggestions field when that field is an
array and the empty list otherwise, and cleaned_prompt falls back to the
submitted prompt when that field is absent. -/
theorem parseDigest_defaulting (data : Json) (prompt : String)
    (h : data ≠ Json.null) :
    ∃ d, parseDigest data prompt = Except.ok d
      ∧ d.confidence = confidenceSpec (fieldOf data "confidence")
      ∧ d.suggestions = suggestionsSpec (fieldOf data "suggestions")
      ∧ (fieldOf data "cleaned_prompt" = none →
          d.cleaned_prompt = Json.str prompt) := by
  cases data with
  | null => exact absurd rfl h
  | bool b => exact ⟨_, rfl, rfl, rfl, fun _ => rfl⟩
  | num q => exact ⟨_, rfl, rfl, rfl, fun _ => rfl⟩
  | str s => exact ⟨_, rfl, rfl, rfl, fun _ => rfl⟩
  | arr xs => exact ⟨_, rfl, rfl, rfl, fun _ => rfl⟩
  | obj fields =>
      refine ⟨_, rfl, ?_, ?_, ?_⟩
      · show (match (match assocLookup fields "confidence" with
            | some v => JsValue.val v
            | none => JsValue.undef) with
          | JsValue.val (Json.num q) => q
          | _ => 0) = confidenceSpec (fieldOf (Json.obj fields) "confidence")
        cases hc : assocLookup fields "confidence" with
        | none => simp [confidenceSpec, fieldOf, hc]
        | some v => cases v <;> simp [confidenceSpec, fieldOf, hc]
      · show (match (match assocLookup fields "suggestions" with
            | some v => JsValue.val v
            | none => JsValue.undef) with
          | JsValue.val (Json.arr xs) => xs
          | _ => []) = suggestionsSpec (fieldOf (Json.obj fields) "suggestions")
        cases hc : assocLookup fields "suggestions" with
        | none => simp [suggestionsSpec, fieldOf, hc]
        | some v => cases v <;> simp [suggestionsSpec, fieldOf, hc]
      · intro hnone
        simp only [fieldOf] at hnone
        show coalesce (match assocLookup fields "cleaned_prompt" with
            | some v => JsValue.val v
            | none => JsValue.undef) (Json.str prompt) = Json.str prompt
        rw [hnone]
        rfl

/-- Concrete digest response with numeric confidence, an array of suggestions,
and no cleaned_prompt field. -/
def wDigestJson : Json :=
  Json.obj [("intent", Json.str "summarize"), ("confidence", Json.num (3 / 4)),
    ("suggestions", Json.arr [Json.str "be brief"])]

/-- Claim C10 witness: a concrete object response parses with its numeric
confidence, its suggestions array, and the prompt fallback. -/
theorem parseDigest_defaulting_witness :
    ∃ d, parseDigest wDigestJson "orig prompt" = Except.ok d
      ∧ d.confidence = confidenceSpec (fieldOf wDigestJson "confidence")
      ∧ d.suggestions = suggestionsSpec (fieldOf wDigestJson "suggestions")
      ∧ (fieldOf wDigestJson "cleaned_prompt" = none →
          d.cleaned_prompt = Json.str "orig prompt") :=
  parseDigest_defaulting wDigestJson "orig prompt"
    (by intro hcon; exact Json.noConfusion hcon)

end MarketGemini
